import Mathlib

/-!
Verification of the KVideo client-side search orchestration core: the
filter-state synchronizer (source and type facets, from the hooks
useSourceBadges and useTypeBadges), the facet collector (typeBadges), and
the search lifecycle controller (useHomePage), shallowly embedded from the
TypeScript source.
-/

namespace KVideo

/-! ### JavaScript string primitives

JS strings are modelled by Lean `String`; `trim` and `split` are embedded
over the underlying character list so that they stay kernel-executable.
-/

/-- Drop whitespace from both ends of a character list. -/
def trimChars (l : List Char) : List Char :=
  ((l.dropWhile Char.isWhitespace).reverse.dropWhile Char.isWhitespace).reverse

/-- JS `s.trim()`. -/
def jsTrim (s : String) : String :=
  String.mk (trimChars s.data)

/-- JS `s.split(',')`. -/
def jsSplitComma (s : String) : List String :=
  (List.splitOn ',' s.data).map String.mk

theorem jsTrim_empty : jsTrim "" = "" := rfl

theorem jsTrim_ne_empty {s : String} (h : jsTrim s ≠ "") : s ≠ "" := by
  intro he
  subst he
  exact h rfl

/-! ### Data model -/

/-- A search result item, reduced to the facet fields this core reads:
`source` for the source facet and `type_name` for the type facet.
Absent optional fields are modelled as `none`. -/
structure ResultItem where
  source : Option String := none
  type_name : Option String := none
  deriving DecidableEq

/-! ### Filter-state synchronizer: filtering

From useSourceBadges.ts lines 67 to 75 and the matching block of
useTypeBadges: when the selection is empty the videos are returned
unchanged, otherwise the filter keeps `video.source &&
selectedSources.has(video.source)` respectively `video.type_name &&
selectedTypes.has(video.type_name.trim())`, where the leading conjunct is
JS truthiness (an absent or empty string is falsy).
-/

def sourceFilterPred (selectedSources : Finset String) (video : ResultItem) : Bool :=
  match video.source with
  | some s => decide (s ≠ "") && decide (s ∈ selectedSources)
  | none => false

def filteredVideosBySource (videos : List ResultItem) (selectedSources : Finset String) :
    List ResultItem :=
  if selectedSources.card = 0 then videos
  else videos.filter (sourceFilterPred selectedSources)

def typeFilterPred (selectedTypes : Finset String) (video : ResultItem) : Bool :=
  match video.type_name with
  | some s => decide (s ≠ "") && decide (jsTrim s ∈ selectedTypes)
  | none => false

def filteredVideosByType (videos : List ResultItem) (selectedTypes : Finset String) :
    List ResultItem :=
  if selectedTypes.card = 0 then videos
  else videos.filter (typeFilterPred selectedTypes)

/-! ### Filter-state synchronizer: toggling -/

/-- toggleSource from useSourceBadges.ts lines 78 to 88: remove the value if
present, add it otherwise. -/
def toggleSource (prev : Finset String) (sourceId : String) : Finset String :=
  if sourceId ∈ prev then prev.erase sourceId else insert sourceId prev

/-- toggleType from useTypeBadges lines 94 to 105: identical update logic on
the type selection. -/
def toggleType (prev : Finset String) (t : String) : Finset String :=
  if t ∈ prev then prev.erase t else insert t prev

/-! ### Filter-state synchronizer: auto-cleanup

Both hooks run the same effect: if the available list is empty, do nothing;
otherwise keep only the selected values that are still available, and only
publish the filtered selection when its size changed.
-/

def autoCleanup (available : List String) (prev : Finset String) : Finset String :=
  if available.length = 0 then prev
  else
    let availableSet := available.toFinset
    let filtered := prev.filter (fun v => v ∈ availableSet)
    if filtered.card ≠ prev.card then filtered else prev

/-! ### Filter-state synchronizer: URL parsing and reconciliation -/

/-- Parse a facet URL parameter: absent or empty parameter gives the empty
selection, otherwise split on commas and drop empty segments. -/
def parseFacetParam : Option String → Finset String
  | some s =>
      if s = "" then (∅ : Finset String)
      else ((jsSplitComma s).filter (fun t => decide (t ≠ ""))).toFinset
  | none => ∅

/-- The update guard of the URL-change effect:
`currentArr.length !== urlArr.length || !currentArr.every(t => url.has(t))`. -/
def selectionDiffers (current url : Finset String) : Bool :=
  decide (current.card ≠ url.card) || !(decide (∀ t ∈ current, t ∈ url))

/-- The URL-change effect: overwrite the in-memory selection with the parsed
one exactly when the guard fires. -/
def urlChangeEffect (current : Finset String) (p : Option String) : Finset String :=
  let urlSel := parseFacetParam p
  if selectionDiffers current urlSel then urlSel else current

/-! ### Theorems: toggling (claim C8) -/

theorem toggle_if_eq (prev : Finset String) (v : String) :
    (if v ∈ prev then prev.erase v else insert v prev) = (prev \ {v}) ∪ ({v} \ prev) := by
  by_cases h : v ∈ prev
  · rw [if_pos h]
    ext a
    by_cases ha : a = v <;>
      simp [Finset.mem_erase, Finset.mem_union, Finset.mem_sdiff, ha, h]
  · rw [if_neg h]
    ext a
    by_cases ha : a = v <;>
      simp [Finset.mem_insert, Finset.mem_union, Finset.mem_sdiff, ha, h]

theorem toggle_twice (prev : Finset String) (v : String) :
    (if v ∈ (if v ∈ prev then prev.erase v else insert v prev) then
        (if v ∈ prev then prev.erase v else insert v prev).erase v
      else insert v (if v ∈ prev then prev.erase v else insert v prev)) = prev := by
  by_cases h : v ∈ prev
  · rw [if_pos h, if_neg (Finset.not_mem_erase v prev), Finset.insert_erase h]
  · rw [if_neg h, if_pos (Finset.mem_insert_self v prev), Finset.erase_insert h]

/-- C8: for every selection and value, both facet toggles compute the
symmetric-difference update (add the value if absent, remove it if present),
and toggling the same value twice returns the selection to its original set. -/
theorem toggle_symmDiff_C8 (prev : Finset String) (v : String) :
    toggleSource prev v = (prev \ {v}) ∪ ({v} \ prev) ∧
    toggleSource (toggleSource prev v) v = prev ∧
    toggleType prev v = (prev \ {v}) ∪ ({v} \ prev) ∧
    toggleType (toggleType prev v) v = prev :=
  ⟨toggle_if_eq prev v, toggle_twice prev v, toggle_if_eq prev v, toggle_twice prev v⟩

/-! ### Theorems: auto-cleanup (claim C2) -/

/-- C2: auto-cleanup with a non-empty available-value list yields exactly the
intersection of the prior selection with the set of available values, and an
empty available-value list leaves the selection unchanged. -/
theorem autoCleanup_inter_C2 (available : List String) (prev : Finset String) :
    autoCleanup available prev =
      if available = [] then prev else prev ∩ available.toFinset := by
  by_cases h : available = []
  · subst h
    rfl
  · have hlen : ¬available.length = 0 := fun h0 => h (List.length_eq_zero.mp h0)
    rw [if_neg h]
    unfold autoCleanup
    rw [if_neg hlen]
    show (if (prev.filter (fun v => v ∈ available.toFinset)).card ≠ prev.card then
        prev.filter (fun v => v ∈ available.toFinset) else prev) = prev ∩ available.toFinset
    have hfilter : prev.filter (fun v => v ∈ available.toFinset) = prev ∩ available.toFinset := by
      ext a
      simp [Finset.mem_filter, Finset.mem_inter]
    by_cases hc : (prev.filter (fun v => v ∈ available.toFinset)).card ≠ prev.card
    · rw [if_pos hc, hfilter]
    · rw [if_neg hc]
      push_neg at hc
      have hsub : prev.filter (fun v => v ∈ available.toFinset) ⊆ prev :=
        Finset.filter_subset _ _
      have heq : prev.filter (fun v => v ∈ available.toFinset) = prev :=
        Finset.eq_of_subset_of_card_le hsub (le_of_eq hc.symm)
      rw [← hfilter, heq]

/-! ### Theorems: URL-to-state reconciliation (claim C6) -/

/-- C6: the URL-change effect overwrites the in-memory selection with the
parsed one exactly when the two differ by size or membership, which happens
exactly when the two sets are unequal; when they are equal the selection is
left unchanged. -/
theorem urlReconcile_C6 (current : Finset String) (p : Option String) :
    (selectionDiffers current (parseFacetParam p) = true ↔ current ≠ parseFacetParam p) ∧
    urlChangeEffect current p =
      (if current = parseFacetParam p then current else parseFacetParam p) := by
  have hiff : ∀ u : Finset String, selectionDiffers current u = true ↔ current ≠ u := by
    intro u
    unfold selectionDiffers
    simp only [Bool.or_eq_true, decide_eq_true_eq, Bool.not_eq_true',
      decide_eq_false_iff_not]
    constructor
    · rintro (hc | hm) he
      · exact hc (by rw [he])
      · exact hm (fun t ht => he ▸ ht)
    · intro hne
      by_contra hno
      push_neg at hno
      obtain ⟨hcard, hsub⟩ := hno
      exact hne (Finset.eq_of_subset_of_card_le (fun t ht => hsub t ht) (le_of_eq hcard.symm))
  refine ⟨hiff _, ?_⟩
  unfold urlChangeEffect
  show (if selectionDiffers current (parseFacetParam p) = true then parseFacetParam p
      else current) =
    if current = parseFacetParam p then current else parseFacetParam p
  by_cases he : current = parseFacetParam p
  · rw [if_pos he, if_neg (fun hd => (hiff _).mp hd he)]
  · rw [if_pos ((hiff _).mpr he), if_neg he]

/-! ### Theorems: filtering (claim C1) -/

/-- Spec-side membership predicate for the source facet, written from the
words of the spec: the facet value of an item is its `source`, and the item
qualifies when that value is a member of the selection. -/
def specSourceFacetMember (S : Finset String) (video : ResultItem) : Bool :=
  match video.source with
  | some s => decide (s ∈ S)
  | none => false

/-- Spec-side membership predicate for the type facet, written from the
words of the spec: the facet value of an item is its trimmed `type_name`. -/
def specTypeFacetMember (S : Finset String) (video : ResultItem) : Bool :=
  match video.type_name with
  | some s => decide (jsTrim s ∈ S)
  | none => false

/-- C1 counterexample: the selection containing only the empty string is
non-empty, and the single item has facet value (its `source`) equal to the
empty string, a member of the selection, yet the filter omits the item: the
result is not exactly the list of items whose facet value is in the
selection. -/
theorem filteredVideos_counterexample_C1 :
    ({""} : Finset String) ≠ ∅ ∧ ("" ∈ ({""} : Finset String)) ∧
    filteredVideosBySource [{ source := some "" }] {""} = [] := by
  decide

/-- C1 (amended): for every item list and selection, if the selection is
empty the filter returns the item list unchanged; and for every non-empty
selection S all of whose values are non-empty strings, the filtered list is
exactly the list of items whose facet value (source, or trimmed type name)
is a member of S. -/
theorem filteredVideos_spec_C1 (videos : List ResultItem) (S : Finset String) :
    (S = ∅ →
      filteredVideosBySource videos S = videos ∧ filteredVideosByType videos S = videos) ∧
    (S ≠ ∅ → "" ∉ S →
      filteredVideosBySource videos S = videos.filter (specSourceFacetMember S) ∧
      filteredVideosByType videos S = videos.filter (specTypeFacetMember S)) := by
  constructor
  · intro hS
    subst hS
    constructor <;> simp [filteredVideosBySource, filteredVideosByType]
  · intro hS hnb
    have hcard : ¬S.card = 0 := fun h0 => hS (Finset.card_eq_zero.mp h0)
    constructor
    · unfold filteredVideosBySource
      rw [if_neg hcard]
      apply List.filter_congr
      intro v hv
      unfold sourceFilterPred specSourceFacetMember
      cases hvs : v.source with
      | none => rfl
      | some s =>
        by_cases hs : s = ""
        · subst hs
          simp [hnb]
        · simp [hs]
    · unfold filteredVideosByType
      rw [if_neg hcard]
      apply List.filter_congr
      intro v hv
      unfold typeFilterPred specTypeFacetMember
      cases hvs : v.type_name with
      | none => rfl
      | some s =>
        by_cases hs : s = ""
        · subst hs
          simp [jsTrim_empty, hnb]
        · simp [hs]

/-- Witness for C1 (amended) at a concrete non-empty selection of non-empty
values. -/
theorem filteredVideos_spec_C1_witness :
    filteredVideosBySource
        [{ source := some "x" }, { source := some "y" }, { type_name := some " x " }] {"x"} =
      List.filter (specSourceFacetMember {"x"})
        [{ source := some "x" }, { source := some "y" }, { type_name := some " x " }] ∧
    filteredVideosByType
        [{ source := some "x" }, { source := some "y" }, { type_name := some " x " }] {"x"} =
      List.filter (specTypeFacetMember {"x"})
        [{ source := some "x" }, { source := some "y" }, { type_name := some " x " }] :=
  (filteredVideos_spec_C1 _ {"x"}).2 (by decide) (by decide)

/-! ### Theorems: URL round-trip (claim C5) -/

/-- Serialize a selection into the URL parameter value:
`Array.from(selected).join(',')`, the selection given in its iteration
order. Strings are taken as character lists here. -/
def encodeSelection (sel : List (List Char)) : List Char :=
  List.intercalate [','] sel

/-- Re-parse a facet parameter value: split on commas and drop the empty
segments. -/
def decodeSelection (s : List Char) : List (List Char) :=
  (s.splitOn ',').filter (fun t => decide (t ≠ []))

/-- C5 counterexample: a selection consisting of one non-empty string that
contains a comma does not survive the round trip — its encoding re-parses
into two different values. -/
theorem urlRoundTrip_counterexample_C5 :
    (['a', ',', 'b'] : List Char) ≠ [] ∧
    decodeSelection (encodeSelection [['a', ',', 'b']]) = [['a'], ['b']] ∧
    (decodeSelection (encodeSelection [['a', ',', 'b']])).toFinset ≠
      ([['a', ',', 'b']] : List (List Char)).toFinset := by
  decide

/-- C5 (amended): re-parsing the comma-joined serialization of a selection
yields the same selection, whatever the iteration order used to serialize,
provided the selected values are non-empty and contain no comma. -/
theorem urlRoundTrip_C5 (sel : List (List Char))
    (hne : ∀ l ∈ sel, l ≠ []) (hc : ∀ l ∈ sel, ',' ∉ l) :
    decodeSelection (encodeSelection sel) = sel ∧
    (decodeSelection (encodeSelection sel)).toFinset = sel.toFinset := by
  have h1 : decodeSelection (encodeSelection sel) = sel := by
    rcases eq_or_ne sel [] with h | h
    · subst h
      rfl
    · unfold decodeSelection encodeSelection
      rw [List.splitOn_intercalate sel ',' hc h]
      exact List.filter_eq_self.mpr (fun a ha => decide_eq_true (hne a ha))
  exact ⟨h1, by rw [h1]⟩

/-- Witness for C5 (amended) at a concrete two-value selection. -/
theorem urlRoundTrip_C5_witness :
    decodeSelection (encodeSelection [['d', 'o', 'g'], ['c', 'a', 't']]) =
      [['d', 'o', 'g'], ['c', 'a', 't']] ∧
    (decodeSelection (encodeSelection [['d', 'o', 'g'], ['c', 'a', 't']])).toFinset =
      ([['d', 'o', 'g'], ['c', 'a', 't']] : List (List Char)).toFinset :=
  urlRoundTrip_C5 _ (by decide) (by decide)

/-! ### Facet collector (typeBadges, useTypeBadges lines 66 to 80)

The source walks the videos, and for each video with a truthy `type_name`
whose trim is truthy it bumps a Map counter keyed by the trimmed value (a JS
Map keeps insertion order, and `set` on an existing key keeps its position);
the entries are then sorted by count descending with the stable Array sort.
-/

/-- The key under which a video is counted:
`video.type_name && video.type_name.trim()` guards the bump, the key being
the trimmed value. -/
def typeBadgeKey (video : ResultItem) : Option String :=
  match video.type_name with
  | some s => if s = "" then none else if jsTrim s = "" then none else some (jsTrim s)
  | none => none

/-- `typeMap.set(t, (typeMap.get(t) || 0) + 1)` on an insertion-ordered
association list: bump the existing entry in place, or append a fresh one. -/
def bumpCount : List (String × Nat) → String → List (String × Nat)
  | [], t => [(t, 1)]
  | (k, c) :: rest, t => if k = t then (k, c + 1) :: rest else (k, c) :: bumpCount rest t

/-- One step of the collecting loop over the videos. -/
def collectStep (m : List (String × Nat)) (video : ResultItem) : List (String × Nat) :=
  match typeBadgeKey video with
  | some t => bumpCount m t
  | none => m

/-- The insertion-ordered counter map built from the videos. -/
def collectTypes (videos : List ResultItem) : List (String × Nat) :=
  videos.foldl collectStep []

/-- The sort order of `.sort((a, b) => b.count - a.count)`: count descending. -/
def byCountDesc (a b : String × Nat) : Prop := b.2 ≤ a.2

instance : DecidableRel byCountDesc := fun a b => Nat.decLe b.2 a.2

instance : IsTotal (String × Nat) byCountDesc := ⟨fun a b => Nat.le_total b.2 a.2⟩

instance : IsTrans (String × Nat) byCountDesc := ⟨fun _ _ _ h₁ h₂ => Nat.le_trans h₂ h₁⟩

/-- The type badges: the counter entries, stably sorted by count descending. -/
def typeBadges (videos : List ResultItem) : List (String × Nat) :=
  List.insertionSort byCountDesc (collectTypes videos)

/-- Number of videos counted under key `t` by the collector guard. -/
def keyCount (videos : List ResultItem) (t : String) : Nat :=
  videos.countP (fun v => decide (typeBadgeKey v = some t))

/-- Number of videos whose trimmed type name equals `t` (the count the spec
describes). -/
def trimCount (videos : List ResultItem) (t : String) : Nat :=
  videos.countP (fun v =>
    match v.type_name with
    | some s => decide (jsTrim s = t)
    | none => false)

/-- First-match lookup in the counter map. -/
def keyLookup (t : String) : List (String × Nat) → Option Nat
  | [] => none
  | (k, c) :: rest => if k = t then some c else keyLookup t rest

/-- Adding `n` occurrences to an optional counter. -/
def addCount : Option Nat → Nat → Option Nat
  | some c, n => some (c + n)
  | none, n => if n = 0 then none else some n

theorem keyLookup_bumpCount (m : List (String × Nat)) (t u : String) :
    keyLookup u (bumpCount m t) =
      if u = t then some ((keyLookup t m).getD 0 + 1) else keyLookup u m := by
  induction m with
  | nil =>
    by_cases h : u = t
    · subst h
      simp [bumpCount, keyLookup]
    · have h2 : ¬t = u := fun he => h he.symm
      simp [bumpCount, keyLookup, h, h2]
  | cons p rest ih =>
    obtain ⟨k, c⟩ := p
    by_cases hkt : k = t
    · subst hkt
      by_cases hu : u = k
      · subst hu
        simp [bumpCount, keyLookup]
      · have h2 : ¬k = u := fun he => hu he.symm
        simp [bumpCount, keyLookup, hu, h2]
    · by_cases hku : k = u
      · have hut : ¬u = t := fun he => hkt (hku.trans he)
        simp [bumpCount, keyLookup, hkt, hku, hut]
      · simp [bumpCount, keyLookup, hkt, hku, ih]

theorem keys_bumpCount (m : List (String × Nat)) (t : String) :
    (bumpCount m t).map Prod.fst =
      if t ∈ m.map Prod.fst then m.map Prod.fst else m.map Prod.fst ++ [t] := by
  induction m with
  | nil => simp [bumpCount]
  | cons p rest ih =>
    obtain ⟨k, c⟩ := p
    by_cases hkt : k = t
    · subst hkt
      simp [bumpCount]
    · simp only [bumpCount, if_neg hkt, List.map_cons, List.mem_cons]
      rw [ih]
      by_cases ht : t ∈ rest.map Prod.fst
      · rw [if_pos ht, if_pos (Or.inr ht)]
      · rw [if_neg ht, if_neg (fun hor => hor.elim (fun he => hkt he.symm) ht)]
        simp

theorem nodup_keys_bumpCount (m : List (String × Nat)) (t : String)
    (h : (m.map Prod.fst).Nodup) : ((bumpCount m t).map Prod.fst).Nodup := by
  rw [keys_bumpCount]
  by_cases ht : t ∈ m.map Prod.fst
  · rwa [if_pos ht]
  · rw [if_neg ht]
    simp [List.nodup_append, h, ht]

theorem mem_iff_keyLookup (m : List (String × Nat)) (hnd : (m.map Prod.fst).Nodup)
    (t : String) (c : Nat) : (t, c) ∈ m ↔ keyLookup t m = some c := by
  induction m with
  | nil => simp [keyLookup]
  | cons p rest ih =>
    obtain ⟨k, c₀⟩ := p
    simp only [List.map_cons, List.nodup_cons] at hnd
    rw [List.mem_cons]
    show (t, c) = (k, c₀) ∨ (t, c) ∈ rest ↔
      (if k = t then some c₀ else keyLookup t rest) = some c
    by_cases hk : k = t
    · rw [if_pos hk]
      subst hk
      constructor
      · rintro (he | hm)
        · injection he with h1 h2
          rw [h2]
        · exact absurd (List.mem_map_of_mem Prod.fst hm) hnd.1
      · intro he
        left
        injection he with h2
        rw [h2]
    · rw [if_neg hk, ← ih hnd.2]
      constructor
      · rintro (he | hm)
        · exact absurd (congrArg Prod.fst he).symm hk
        · exact hm
      · exact Or.inr

theorem addCount_some_getD (o : Option Nat) (n : Nat) :
    addCount (some (o.getD 0 + 1)) n = addCount o (n + 1) := by
  cases o <;> simp [addCount] <;> omega

theorem keyLookup_foldl (videos : List ResultItem) :
    ∀ (m : List (String × Nat)) (t : String),
      keyLookup t (videos.foldl collectStep m) =
        addCount (keyLookup t m) (keyCount videos t) := by
  induction videos with
  | nil =>
    intro m t
    simp only [List.foldl_nil, keyCount, List.countP_nil]
    cases keyLookup t m <;> simp [addCount]
  | cons v vs ih =>
    intro m t
    rw [List.foldl_cons, ih]
    cases hk : typeBadgeKey v with
    | none =>
      have hstep : collectStep m v = m := by simp [collectStep, hk]
      have hcnt : keyCount (v :: vs) t = keyCount vs t := by
        simp [keyCount, List.countP_cons, hk]
      rw [hstep, hcnt]
    | some t₀ =>
      have hstep : collectStep m v = bumpCount m t₀ := by simp [collectStep, hk]
      rw [hstep, keyLookup_bumpCount]
      by_cases ht : t = t₀
      · subst ht
        have hcnt : keyCount (v :: vs) t = keyCount vs t + 1 := by
          simp [keyCount, List.countP_cons, hk]
        rw [hcnt, if_pos rfl, addCount_some_getD]
      · have ht2 : ¬t₀ = t := fun he => ht he.symm
        have hcnt : keyCount (v :: vs) t = keyCount vs t := by
          simp [keyCount, List.countP_cons, hk, ht2]
        rw [hcnt, if_neg ht]

theorem nodup_keys_foldl (videos : List ResultItem) :
    ∀ m : List (String × Nat), (m.map Prod.fst).Nodup →
      ((videos.foldl collectStep m).map Prod.fst).Nodup := by
  induction videos with
  | nil =>
    intro m h
    simpa using h
  | cons v vs ih =>
    intro m h
    rw [List.foldl_cons]
    apply ih
    cases hk : typeBadgeKey v with
    | none => simpa [collectStep, hk] using h
    | some t₀ =>
      rw [show collectStep m v = bumpCount m t₀ by simp [collectStep, hk]]
      exact nodup_keys_bumpCount m t₀ h

theorem nodup_keys_collectTypes (videos : List ResultItem) :
    ((collectTypes videos).map Prod.fst).Nodup :=
  nodup_keys_foldl videos [] (by simp)

theorem keyLookup_collectTypes (videos : List ResultItem) (t : String) :
    keyLookup t (collectTypes videos) =
      if keyCount videos t = 0 then none else some (keyCount videos t) := by
  show keyLookup t (videos.foldl collectStep []) = _
  rw [keyLookup_foldl videos [] t]
  rfl

theorem mem_collectTypes_iff (videos : List ResultItem) (t : String) (c : Nat) :
    (t, c) ∈ collectTypes videos ↔ keyCount videos t = c ∧ 0 < c := by
  rw [mem_iff_keyLookup _ (nodup_keys_collectTypes videos), keyLookup_collectTypes]
  by_cases h0 : keyCount videos t = 0
  · rw [if_pos h0, h0]
    constructor
    · intro he
      exact absurd he (by simp)
    · rintro ⟨he, hpos⟩
      omega
  · rw [if_neg h0]
    constructor
    · intro he
      injection he with he
      exact ⟨he, he ▸ Nat.pos_of_ne_zero h0⟩
    · rintro ⟨he, hpos⟩
      rw [he]

theorem typeBadgeKey_some {v : ResultItem} {t : String} (h : typeBadgeKey v = some t) :
    ∃ s, v.type_name = some s ∧ s ≠ "" ∧ jsTrim s ≠ "" ∧ jsTrim s = t := by
  unfold typeBadgeKey at h
  revert h
  cases hvn : v.type_name with
  | none =>
    intro h
    exact Option.noConfusion h
  | some s =>
    intro h
    have h2 : (if s = "" then none else if jsTrim s = "" then none
        else some (jsTrim s)) = some t := h
    by_cases hs : s = ""
    · rw [if_pos hs] at h2
      exact Option.noConfusion h2
    · rw [if_neg hs] at h2
      by_cases hts : jsTrim s = ""
      · rw [if_pos hts] at h2
        exact Option.noConfusion h2
      · rw [if_neg hts] at h2
        injection h2 with he
        exact ⟨s, rfl, hs, hts, he⟩

theorem badgeKey_ne_empty (videos : List ResultItem) (t : String)
    (h : keyCount videos t ≠ 0) : t ≠ "" := by
  obtain ⟨v, hv, hpv⟩ := List.countP_pos_iff.mp (Nat.pos_of_ne_zero h)
  obtain ⟨s, hvn, hs, hts, he⟩ := typeBadgeKey_some (of_decide_eq_true hpv)
  rw [← he]
  exact hts

theorem keyCount_eq_trimCount (videos : List ResultItem) (t : String) (ht : t ≠ "") :
    keyCount videos t = trimCount videos t := by
  unfold keyCount trimCount
  apply List.countP_congr
  intro v hv
  cases hvn : v.type_name with
  | none => simp [typeBadgeKey, hvn]
  | some s =>
    by_cases hs : s = ""
    · subst hs
      simp [typeBadgeKey, hvn, jsTrim_empty, Ne.symm ht]
    · by_cases hts : jsTrim s = ""
      · simp [typeBadgeKey, hvn, hs, hts, Ne.symm ht]
      · simp [typeBadgeKey, hvn, hs, hts]

theorem mem_typeBadges_iff (videos : List ResultItem) (t : String) (c : Nat) :
    (t, c) ∈ typeBadges videos ↔ (t, c) ∈ collectTypes videos := by
  unfold typeBadges
  simp [List.mem_insertionSort]

theorem nodup_keys_typeBadges (videos : List ResultItem) :
    ((typeBadges videos).map Prod.fst).Nodup := by
  have hp : List.Perm (typeBadges videos) (collectTypes videos) :=
    List.perm_insertionSort byCountDesc _
  exact ((hp.map Prod.fst).nodup_iff).mpr (nodup_keys_collectTypes videos)

/-- C7: the type badges contain exactly one entry per distinct non-empty
trimmed type name present among the videos, each entry counting the videos
whose trimmed type name equals it (videos with an absent or whitespace-only
type name contribute nothing), the entries are sorted by count descending,
and the scenario input with type names movie, movie, show yields exactly the
expected badge list. -/
theorem typeBadges_spec_C7 (videos : List ResultItem) :
    ((typeBadges videos).map Prod.fst).Nodup ∧
    (∀ t c, (t, c) ∈ typeBadges videos ↔ t ≠ "" ∧ trimCount videos t = c ∧ 0 < c) ∧
    List.Sorted byCountDesc (typeBadges videos) ∧
    typeBadges [{ type_name := some "movie" }, { type_name := some "movie" },
        { type_name := some "show" }] =
      [("movie", 2), ("show", 1)] := by
  refine ⟨nodup_keys_typeBadges videos, ?_, ?_, by decide⟩
  · intro t c
    rw [mem_typeBadges_iff, mem_collectTypes_iff]
    constructor
    · rintro ⟨hkc, hpos⟩
      have ht : t ≠ "" := badgeKey_ne_empty videos t (by omega)
      refine ⟨ht, ?_, hpos⟩
      rw [← keyCount_eq_trimCount videos t ht, hkc]
    · rintro ⟨ht, htc, hpos⟩
      rw [keyCount_eq_trimCount videos t ht]
      exact ⟨htc, hpos⟩
  · unfold typeBadges
    exact List.sorted_insertionSort byCountDesc _

/-- C10: type filtering and badge collection agree on the trimmed key: any
value appearing on a produced type badge, once selected, matches every video
of the list whose trimmed type name equals it, whatever surrounding
whitespace the raw type name carries. -/
theorem trimKey_consistency_C10 (videos : List ResultItem) (S : Finset String)
    (t : String) (v : ResultItem) (s : String)
    (hb : t ∈ (typeBadges videos).map Prod.fst)
    (hv : v ∈ videos) (hvn : v.type_name = some s) (hts : jsTrim s = t) (hS : t ∈ S) :
    typeFilterPred S v = true ∧ v ∈ filteredVideosByType videos S := by
  obtain ⟨p, hpmem, hpt⟩ := List.mem_map.mp hb
  obtain ⟨t', c⟩ := p
  have ht' : t' = t := hpt
  subst ht'
  have h2 := (mem_collectTypes_iff videos t' c).mp ((mem_typeBadges_iff videos t' c).mp hpmem)
  have ht : t' ≠ "" := badgeKey_ne_empty videos t' (by omega)
  have hs : s ≠ "" := by
    intro he
    subst he
    rw [jsTrim_empty] at hts
    exact ht hts.symm
  have hpred : typeFilterPred S v = true := by
    unfold typeFilterPred
    rw [hvn]
    simp [hs, hts, hS]
  refine ⟨hpred, ?_⟩
  unfold filteredVideosByType
  rw [if_neg (Finset.card_ne_zero_of_mem hS)]
  exact List.mem_filter.mpr ⟨hv, hpred⟩

/-- Witness for C10 at a concrete video whose raw type name carries
whitespace around the badge value. -/
theorem trimKey_consistency_C10_witness :
    typeFilterPred {"movie"} { type_name := some " movie " } = true ∧
    ({ type_name := some " movie " } : ResultItem) ∈
      filteredVideosByType [{ type_name := some " movie " }] {"movie"} :=
  trimKey_consistency_C10 [{ type_name := some " movie " }] {"movie"} "movie"
    { type_name := some " movie " } " movie " (by decide) (by decide) rfl (by decide)
    (by decide)

/-! ### Search lifecycle controller (useHomePage)

State owned by the controller: `query`, `hasSearched`, the
`hasSearchedWithSourcesRef` latch and the `hasLoadedCache` one-shot flag.
Calls into the external parallel-search engine are recorded as an explicit
call list. -/

/-- The sort preference enum of the settings store, kept abstract as its
identifier string. -/
abbrev SortOption := String

/-- One entry of `settings.sources`. -/
structure SourceConfig where
  id : String
  enabled : Bool
  deriving DecidableEq

/-- The settings read through `settingsStore.getSettings()`. -/
structure Settings where
  sources : List SourceConfig
  sortBy : SortOption
  deriving DecidableEq

/-- The controller state. -/
structure HomeState where
  query : String
  hasSearched : Bool
  hasSearchedWithSources : Bool
  hasLoadedCache : Bool
  deriving DecidableEq

/-- A cached result bundle as returned by `loadFromCache()`. -/
structure CachedBundle where
  query : String
  results : List ResultItem
  availableSources : List String
  deriving DecidableEq

/-- Calls made into the external parallel-search engine. -/
inductive EngineCall where
  | performSearch (query : String) (enabledSources : List SourceConfig) (sortBy : SortOption)
  | loadCachedResults (results : List ResultItem) (availableSources : List String)
  deriving DecidableEq

/-- executeSearch (part_000 lines 47 to 60): a blank query or an empty
enabled-source list aborts with failure; otherwise the engine is invoked and
the searched-with-sources latch is set. -/
def executeSearch (settings : Settings) (searchQuery : String) (st : HomeState) :
    Bool × HomeState × List EngineCall :=
  if jsTrim searchQuery = "" then (false, st, [])
  else
    let enabledSources := settings.sources.filter (fun s => s.enabled)
    if enabledSources.length = 0 then (false, st, [])
    else
      (true, { st with hasSearchedWithSources := true },
        [EngineCall.performSearch searchQuery enabledSources settings.sortBy])

/-- handleSearch (part_000 lines 102 to 107): no-op on a blank query,
otherwise set the query and hasSearched and run executeSearch. -/
def handleSearch (settings : Settings) (searchQuery : String) (st : HomeState) :
    HomeState × List EngineCall :=
  if jsTrim searchQuery = "" then (st, [])
  else
    let st1 := { st with query := searchQuery, hasSearched := true }
    let r := executeSearch settings searchQuery st1
    (r.2.1, r.2.2)

/-- The cache-restoration mount effect (part_000 lines 110 to 127), guarded
by the one-shot `hasLoadedCache` flag; `urlQuery` is `searchParams.get(q)`
and `cached` is `loadFromCache()`. -/
def mountEffect (settings : Settings) (urlQuery : Option String)
    (cached : Option CachedBundle) (st : HomeState) : HomeState × List EngineCall :=
  if st.hasLoadedCache then (st, [])
  else
    let st1 := { st with hasLoadedCache := true }
    match urlQuery with
    | none => (st1, [])
    | some q =>
      if q = "" then (st1, [])
      else
        let st2 := { st1 with query := q }
        match cached with
        | some c =>
          if c.query = q ∧ c.results.length > 0 then
            ({ st2 with hasSearched := true, hasSearchedWithSources := true },
              [EngineCall.loadCachedResults c.results c.availableSources])
          else handleSearch settings q st2
        | none => handleSearch settings q st2

/-! ### Theorems: executeSearch (claim C4) -/

/-- C4: for a non-blank query, executeSearch with zero enabled sources
returns failure, leaves the state unchanged (the latch in particular) and
makes no engine call; with at least one enabled source it performs exactly
one engine search with the query, the enabled sources and the sort
preference, sets the latch and returns success. -/
theorem executeSearch_spec_C4 (settings : Settings) (searchQuery : String) (st : HomeState)
    (hq : jsTrim searchQuery ≠ "") :
    (settings.sources.filter (fun s => s.enabled) = [] →
      executeSearch settings searchQuery st = (false, st, [])) ∧
    (settings.sources.filter (fun s => s.enabled) ≠ [] →
      executeSearch settings searchQuery st =
        (true, { st with hasSearchedWithSources := true },
          [EngineCall.performSearch searchQuery (settings.sources.filter (fun s => s.enabled))
            settings.sortBy])) := by
  constructor
  · intro h0
    unfold executeSearch
    rw [if_neg hq]
    show (if (settings.sources.filter (fun s => s.enabled)).length = 0 then
        ((false : Bool), st, ([] : List EngineCall)) else _) = _
    rw [if_pos (by rw [h0]; rfl)]
  · intro h0
    unfold executeSearch
    rw [if_neg hq]
    show (if (settings.sources.filter (fun s => s.enabled)).length = 0 then
        ((false : Bool), st, ([] : List EngineCall)) else _) = _
    rw [if_neg (fun hl => h0 (List.length_eq_zero.mp hl))]

/-- The controller state as first mounted: everything cleared. -/
def freshState : HomeState :=
  { query := "", hasSearched := false, hasSearchedWithSources := false, hasLoadedCache := false }

/-- Witness for C4 covering both branches: a disabled-only source list makes
no engine call, an enabled source list produces exactly the one search
call. -/
theorem executeSearch_spec_C4_witness :
    executeSearch { sources := [{ id := "s1", enabled := false }], sortBy := "default" }
        "cats" freshState = (false, freshState, []) ∧
    executeSearch { sources := [{ id := "s1", enabled := true }], sortBy := "default" }
        "cats" freshState =
      (true, { freshState with hasSearchedWithSources := true },
        [EngineCall.performSearch "cats" [{ id := "s1", enabled := true }] "default"]) :=
  ⟨(executeSearch_spec_C4 _ _ _ (by decide)).1 (by decide),
    (executeSearch_spec_C4 _ _ _ (by decide)).2 (by decide)⟩

/-! ### Theorems: handleSearch on blank queries (claim C9) -/

/-- C9: for every blank or whitespace-only query, handleSearch returns the
state unchanged — query, hasSearched and the searched-with-sources latch
keep their values — and makes no engine call. -/
theorem handleSearch_blank_C9 (settings : Settings) (searchQuery : String) (st : HomeState)
    (hq : jsTrim searchQuery = "") :
    handleSearch settings searchQuery st = (st, []) := by
  unfold handleSearch
  rw [if_pos hq]

/-- Witness for C9 on a whitespace-only query. -/
theorem handleSearch_blank_C9_witness :
    handleSearch { sources := [{ id := "s1", enabled := true }], sortBy := "default" } "   "
      { freshState with query := "q0" } =
    ({ freshState with query := "q0" }, []) :=
  handleSearch_blank_C9 _ _ _ (by decide)

/-! ### Theorems: mount-time restoration (claim C3) -/

/-- C3 counterexample: on a fresh mount where the URL q parameter is present
with the empty string as value and the cache holds a bundle whose stored
query equals that value and whose result list is non-empty, the claim
requires a direct restoration, but the effect only marks the one-shot flag:
hasSearched stays false, the latch stays unset and no engine call is made. -/
theorem mountEffect_counterexample_C3 :
    ({ query := "", results := [{ source := some "x" }], availableSources := [] }
        : CachedBundle).results ≠ [] ∧
    mountEffect { sources := [{ id := "s1", enabled := true }], sortBy := "default" }
        (some "")
        (some { query := "", results := [{ source := some "x" }], availableSources := [] })
        freshState =
      ({ freshState with hasLoadedCache := true }, []) := by
  exact ⟨by decide, by decide⟩

/-- C3 (amended): the mount restoration is a no-op once the one-shot flag is
set (so it runs at most once); on a fresh mount whose URL holds a non-empty
q value, a cached bundle whose stored query equals that value and whose
result list is non-empty is restored directly — the query is adopted,
hasSearched and the searched-with-sources latch are set, and the only engine
call loads the cached results, with no performSearch; otherwise the
controller performs a fresh handleSearch with the URL query. -/
theorem mountEffect_spec_C3 (settings : Settings) (urlQuery : Option String)
    (cached : Option CachedBundle) (st : HomeState) :
    (st.hasLoadedCache = true → mountEffect settings urlQuery cached st = (st, [])) ∧
    (∀ q c, st.hasLoadedCache = false → urlQuery = some q → q ≠ "" → cached = some c →
      c.query = q → c.results ≠ [] →
      mountEffect settings urlQuery cached st =
        ({ st with
            hasLoadedCache := true
            query := q
            hasSearched := true
            hasSearchedWithSources := true },
          [EngineCall.loadCachedResults c.results c.availableSources])) ∧
    (∀ q, st.hasLoadedCache = false → urlQuery = some q → q ≠ "" →
      (∀ c, cached = some c → ¬(c.query = q ∧ c.results ≠ [])) →
      mountEffect settings urlQuery cached st =
        handleSearch settings q { st with hasLoadedCache := true, query := q }) := by
  refine ⟨?_, ?_, ?_⟩
  · intro h
    unfold mountEffect
    rw [if_pos h]
  · intro q c hflag hurl hq hc hcq hcr
    subst hurl
    subst hc
    simp only [mountEffect, hflag, Bool.false_eq_true, if_false]
    rw [if_neg hq, if_pos ⟨hcq, List.length_pos.mpr hcr⟩]
  · intro q hflag hurl hq hnc
    subst hurl
    cases cached with
    | none =>
      simp only [mountEffect, hflag, Bool.false_eq_true, if_false]
      rw [if_neg hq]
    | some c =>
      have hneg : ¬(c.query = q ∧ c.results.length > 0) :=
        fun hcon => hnc c rfl ⟨hcon.1, List.length_pos.mp hcon.2⟩
      simp only [mountEffect, hflag, Bool.false_eq_true, if_false, if_neg hq, if_neg hneg]

/-- Witness for C3 (amended) on the scenario: URL query dogs, cached bundle
for dogs with three results, fresh mount — restored directly with the single
cache-loading engine call. -/
theorem mountEffect_spec_C3_witness :
    mountEffect { sources := [], sortBy := "default" } (some "dogs")
        (some
          { query := "dogs"
            results := [{ source := some "x" }, { source := some "y" }, { source := some "z" }]
            availableSources := ["sx"] }) freshState =
      ({ freshState with
          hasLoadedCache := true
          query := "dogs"
          hasSearched := true
          hasSearchedWithSources := true },
        [EngineCall.loadCachedResults
          [{ source := some "x" }, { source := some "y" }, { source := some "z" }] ["sx"]]) :=
  (mountEffect_spec_C3 _ _ _ _).2.1 "dogs" _ rfl rfl (by decide) rfl rfl (by decide)

end KVideo
